import Mathlib

set_option maxRecDepth 40000

/-!
Shallow embedding of the rubric score reconciliation logic of the KU essay
grading frontend (frontend/src: ResultsPage `processResults`,
`processStudentResult`, `deduplicateFeedback`, `highlightFlaggedContent`,
`handleSaveScore`; EditScoreModal `useEffect`, `handleScoreChange`,
`handleSave`), together with theorems settling the frozen claims about it.

Modelling conventions:
- JS numbers are embedded as `Int`.  Every score in the system is an integer
  (modal radio buttons offer 0..maxScore); the only division in the code,
  `totalScore / numSections`, is consumed exclusively through
  `Math.round(...)`, which is modelled exactly by `jsRoundDiv`.
- A rendered score string `"n/m"` (built as a template literal and read back
  by splitting on the slash and `parseInt`) is embedded as the pair
  `ScoreStr n m`.  `parseInt` of the numerator of such a string is the
  numerator itself, so the `isNaN` fallback in the modal is unreachable.
- JS objects used as string-keyed maps are embedded as association lists
  with unique keys in insertion order; assignment `o[k] = v` updates an
  existing key in place and appends a fresh key (`objUpsert`).
- The modal's `scores` and `gradingSource` states are two objects that are
  only ever written together with the same key sets (initial useState,
  useEffect initialisation from the same score-bearing feedback entries,
  and `handleScoreChange`), so they are embedded as one list of
  `ModalSlot` records carrying a score and a grading source per key.
- `new Date().toISOString()` is embedded as an abstract `Nat` timestamp.
-/

/-- JS `Math.round(total / count)` where `total / count` is exact rational
division: `floor(total/count + 1/2) = (2*total + count) fdiv (2*count)`.
For `count = 0` the JS code would produce NaN; that case is unreachable in
the modal, whose score state always contains the six fixed sections. -/
def jsRoundDiv (total count : Int) : Int :=
  Int.fdiv (2 * total + count) (2 * count)

/-- JS `x || y` for an optional numeric field: `undefined` and `0` are falsy. -/
def jsOrZ (x : Option Int) (y : Int) : Int :=
  match x with
  | some v => if v = 0 then y else v
  | none => y

/-- JS `x || y` for an optional string field: `undefined` and `""` are falsy. -/
def jsOrStr (x : Option String) (y : String) : String :=
  match x with
  | some s => if s = "" then y else s
  | none => y

/-- JS truthiness of an optional string. -/
def strTruthy (x : Option String) : Bool :=
  match x with
  | some s => s != ""
  | none => false

/-- JS object property read `o[k]` on a string-keyed map. -/
def objLookup (l : List (String × α)) (k : String) : Option α :=
  match l with
  | [] => none
  | p :: r => if p.1 = k then some p.2 else objLookup r k

/-- JS object assignment `o[k] = v`: update an existing key in place,
append a fresh key at the end. -/
def objUpsert (l : List (String × α)) (k : String) (v : α) : List (String × α) :=
  match l with
  | [] => [(k, v)]
  | p :: r => if p.1 = k then (k, v) :: r else p :: objUpsert r k v

/-- Keys of an embedded JS object, in insertion order. -/
def objKeys (l : List (String × α)) : List String := l.map Prod.fst

/-- A rendered score string `"num/den"` (e.g. `"3/4"`), kept as its parts. -/
structure ScoreStr where
  num : Int
  den : Int
deriving DecidableEq, Repr

/-- One per-criterion feedback entry as built by `processStudentResult` and
updated by the modal's `handleSave`. -/
structure FeedbackEntry where
  score : Option ScoreStr
  grade : String
  text : String
  isManualOverride : Bool
deriving DecidableEq, Repr

/-- The `keyMappings` table of `deduplicateFeedback`: camelCase key to its
snake_case equivalent. -/
def camelToSnake (k : String) : Option String :=
  if k = "contentUnderstanding" then some "content_understanding"
  else if k = "questionAddressing" then some "question_addressing"
  else if k = "textualEvidence" then some "use_of_textual_evidence"
  else if k = "analysisInterpretation" then some "analysis_and_interpretation"
  else if k = "writingQuality" then some "writing_quality"
  else none

/-- Reverse lookup in `keyMappings`
(`Object.keys(keyMappings).find(k => keyMappings[k] === key)`). -/
def snakeToCamel (s : String) : Option String :=
  if s = "content_understanding" then some "contentUnderstanding"
  else if s = "question_addressing" then some "questionAddressing"
  else if s = "use_of_textual_evidence" then some "textualEvidence"
  else if s = "analysis_and_interpretation" then some "analysisInterpretation"
  else if s = "writing_quality" then some "writingQuality"
  else none

/-- JS `key.includes('_')`. -/
def hasUnderscore (k : String) : Bool := k.data.contains '_'

/-- ResultsPage `deduplicateFeedback`.  First pass: every key containing an
underscore is copied over and marked processed, together with its camelCase
partner from `keyMappings`.  Second pass: a key without an underscore is kept
only if it was not marked processed and its snake_case equivalent (when it
has one) is absent from the input.  Entry values are JS objects (always
truthy), so the `!feedback[snakeCaseEquivalent]` test is an absence test. -/
def deduplicateFeedback (f : List (String × α)) : List (String × α) :=
  let snakes := f.filter (fun p => hasUnderscore p.1)
  let processed : List String := snakes.flatMap (fun p => p.1 :: (snakeToCamel p.1).toList)
  let pass2 := f.filter (fun p =>
    !hasUnderscore p.1 && !processed.contains p.1 &&
      (match camelToSnake p.1 with
       | none => true
       | some s => (objLookup f s).isNone))
  snakes ++ pass2

/-- One indexed rubric-metric slot of a raw grading record: the fields
`rubric_metric{i}_name`, `rubric_metric{i}_score`,
`rubric_metric{i}_grading_source`. -/
structure MetricSlot where
  name : Option String := none
  score : Option Int := none
  gradingSource : Option String := none
deriving DecidableEq, Repr

/-- A raw grading record (either the bare response object or the object under
its `result` wrapper).  `metrics` lists the indexed rubric-metric slots in
index order; the parser reads at most the first 10.  The truthiness of
`manual_override_applied` and `has_manual_overrides` is embedded as `Bool`. -/
structure RawRecord where
  student_id : Option String := none
  content_id : Option String := none
  essay_type : Option String := none
  essay_response : Option String := none
  essay_question : Option String := none
  essay_prompt : Option String := none
  mean_score : Option Int := none
  essay_score : Option Int := none
  score : Option Int := none
  max_score : Option Int := none
  manual_override_applied : Bool := false
  has_manual_overrides : Bool := false
  metrics : List MetricSlot := []
  metric_justifications : List (String × String) := []
  ai_confidence : Option Int := none
  confidence_score : Option Int := none
  essay_flagged : Option String := none
  flag_reason : Option String := none
  flag_message : Option String := none
  flagged_content : Option (List String) := none
  strengths : Option (List String) := none
  areas_for_improvement : Option (List String) := none
  score_description : Option String := none
  confidence_explanation : Option String := none
  rubric_used : Option String := none
  processing_status : Option String := none
  processing_mode : Option String := none
deriving DecidableEq, Repr

/-- One element of the API response: its own top-level fields (`self`) plus
the optional nested `result` object. -/
structure ApiResponse where
  self : RawRecord := {}
  result : Option RawRecord := none
deriving DecidableEq, Repr

/-- An originally-uploaded essay, as returned by `findOriginalEssay`. -/
structure OrigEssay where
  essay_response : Option String := none
  essay_type : Option String := none
  content_id : Option String := none
deriving DecidableEq, Repr

/-- One slot of the modal's paired `scores` / `gradingSource` state. -/
structure ModalSlot where
  key : String
  score : Int
  source : String
deriving DecidableEq, Repr

/-- The `manualOverrideData` metadata attached by `handleSaveScore`:
the saved scores and grading sources plus the override timestamp. -/
structure OverrideMeta where
  slots : List ModalSlot
  overrideTimestamp : Nat
deriving DecidableEq, Repr

/-- The display-format student object returned by `processStudentResult` and
updated by `handleSaveScore`.  The `rawResult` back-reference (never read by
the reconciliation logic) is omitted. -/
structure Student where
  id : String
  contentId : String
  score : ScoreStr
  essayScore : Int
  maxScore : Int
  aggregateScore : Int
  maxAggregateScore : Int
  confidenceScore : Int
  essayType : String
  feedback : List (String × FeedbackEntry)
  flaggedContent : Bool
  flagMessage : String
  flaggedSentences : List String
  essayResponse : String
  essayPrompt : String
  strengths : List String
  areasForImprovement : List String
  scoreDescription : String
  confidenceExplanation : String
  processingStatus : String
  processingMode : String
  rubricUsed : String
  hasManualOverrides : Bool
  isManualOverride : Bool
  generalFeedback : Option String := none
  manualOverrideData : Option OverrideMeta := none
deriving DecidableEq, Repr

/-- Accumulator of the rubric-metric loop in `processStudentResult`:
the feedback object under construction, `totalRubricScore`, `rubricCount`. -/
structure FeedbackAcc where
  feedback : List (String × FeedbackEntry)
  total : Int
  count : Int
deriving DecidableEq, Repr

/-- One iteration of the rubric-metric loop: a slot with a truthy name and a
score strictly greater than 0 yields one feedback entry (last write wins on a
repeated name) and is added to the running total and count; all other slots
are skipped.  `gradingSource` falls back to `'ai'` when falsy and the entry
is human when it equals `'human'` or `'manual'`. -/
def metricStep (justs : List (String × String)) (maxScore : Int)
    (acc : FeedbackAcc) (slot : MetricSlot) : FeedbackAcc :=
  match slot.name, slot.score with
  | some nm, some sc =>
    if nm ≠ "" ∧ 0 < sc then
      let gs := jsOrStr slot.gradingSource "ai"
      let isManual := gs == "human" || gs == "manual"
      { feedback := objUpsert acc.feedback nm
          { score := some ⟨sc, maxScore⟩
            grade := if isManual then "Human Graded" else "AI Graded"
            text := jsOrStr (objLookup justs nm) "No detailed feedback available."
            isManualOverride := isManual }
        total := acc.total + sc
        count := acc.count + 1 }
    else acc
  | _, _ => acc

/-- The rubric-metric loop of `processStudentResult` (indices 1 to 10). -/
def buildFeedback (r : RawRecord) (maxScore : Int) : FeedbackAcc :=
  (r.metrics.take 10).foldl (metricStep r.metric_justifications maxScore) ⟨[], 0, 0⟩

/-- `apiResponse.result || apiResponse`. -/
def effRec (a : ApiResponse) : RawRecord := a.result.getD a.self

/-- ResultsPage `processStudentResult`.  `findOriginalEssay` is the lookup of
the originally-uploaded essay data by student id (an external collaborator
of the reconciliation logic, passed here as a parameter).  In mean mode the
displayed numerator is `Math.round(essayScore)`, the identity on the
integer-valued `essayScore`. -/
def processStudentResult (findOriginalEssay : String → Option OrigEssay)
    (a : ApiResponse) : Student :=
  let result := effRec a
  let studentId := jsOrStr a.self.student_id (jsOrStr result.student_id "Unknown")
  let originalEssay := findOriginalEssay studentId
  let isMeanScore := result.manual_override_applied || result.mean_score.isSome
  let essayScore := jsOrZ result.mean_score (jsOrZ result.essay_score (jsOrZ result.score 0))
  let maxScore : Int := if isMeanScore then 3 else jsOrZ result.max_score 4
  let acc := buildFeedback result maxScore
  let hasManualOverrides := acc.feedback.any (fun p => p.2.isManualOverride)
    || result.manual_override_applied || result.has_manual_overrides
  { id := studentId
    contentId := jsOrStr a.self.content_id
      (jsOrStr result.content_id (jsOrStr (originalEssay.bind (·.content_id)) ""))
    score := ⟨essayScore, maxScore⟩
    essayScore := essayScore
    maxScore := maxScore
    aggregateScore := acc.total
    maxAggregateScore := acc.count * maxScore
    confidenceScore := jsOrZ result.ai_confidence (jsOrZ result.confidence_score 0)
    essayType := jsOrStr a.self.essay_type
      (jsOrStr result.essay_type
        (jsOrStr (originalEssay.bind (·.essay_type)) "Source Dependent Responses"))
    feedback := deduplicateFeedback acc.feedback
    flaggedContent := result.essay_flagged == some "Yes"
    flagMessage := jsOrStr result.flag_reason (jsOrStr result.flag_message "")
    flaggedSentences := result.flagged_content.getD []
    essayResponse := jsOrStr (originalEssay.bind (·.essay_response))
      (jsOrStr a.self.essay_response (jsOrStr result.essay_response ""))
    essayPrompt := jsOrStr result.essay_question (jsOrStr result.essay_prompt "")
    strengths := result.strengths.getD []
    areasForImprovement := result.areas_for_improvement.getD []
    scoreDescription := jsOrStr result.score_description ""
    confidenceExplanation := jsOrStr result.confidence_explanation ""
    processingStatus := jsOrStr a.self.processing_status "completed"
    processingMode := jsOrStr a.self.processing_mode "single"
    rubricUsed := jsOrStr result.rubric_used ""
    hasManualOverrides := hasManualOverrides
    isManualOverride := hasManualOverrides }

/-- The three input shapes accepted by `processResults`: a falsy input, an
array, or an object (whose optional `results` array is carried alongside). -/
inductive ApiResults
  | null
  | arr (xs : List ApiResponse)
  | obj (top : ApiResponse) (results : Option (List ApiResponse))
deriving DecidableEq, Repr

/-- ResultsPage `processResults`: an array is mapped; an object with a truthy
top-level `student_id` is parsed alone; otherwise its `results` array (when
present) is mapped; anything else yields the empty list. -/
def processResults (findOriginalEssay : String → Option OrigEssay) :
    ApiResults → List Student
  | .null => []
  | .arr xs => xs.map (processStudentResult findOriginalEssay)
  | .obj top results =>
    if strTruthy top.self.student_id then [processStudentResult findOriginalEssay top]
    else
      match results with
      | some xs => xs.map (processStudentResult findOriginalEssay)
      | none => []

/-- The six fixed rubric sections of the EditScoreModal, in declaration
order. -/
def fixedSections : List String :=
  ["content_understanding", "question_addressing", "use_of_textual_evidence",
   "analysis_and_interpretation", "writing_quality", "overall_performance"]

/-- Upsert into the modal slot list by key (JS object assignment applied to
the paired `scores` and `gradingSource` objects). -/
def slotUpsert (l : List ModalSlot) (s : ModalSlot) : List ModalSlot :=
  match l with
  | [] => [s]
  | t :: r => if t.key = s.key then s :: r else t :: slotUpsert r s

/-- The hard-coded default AI feedback string of the modal. -/
def defaultAIFeedback : String :=
  "The essay demonstrates a basic understanding of the text and provides a reasonable explanation for why the author concludes with this paragraph. However, the analysis does not fully explore the deeper complexities or thematic significance, which would be required for a score of 3."

/-- The modal state after its opening `useEffect` has run: the paired
`scores` / `gradingSource` slots, the editable free-text feedback, and the
displayed original AI feedback. -/
structure ModalState where
  slots : List ModalSlot
  feedbackText : String
  originalAIFeedback : String
deriving DecidableEq, Repr

/-- EditScoreModal initialisation (the `useEffect` running on open): the six
fixed sections default to `Math.floor(maxScore / 2)` with source `'ai'`, then
every score-bearing feedback entry overlays its parsed numerator
(`parseInt(feedback.score.split('/')[0])`, the numerator itself here, so the
`isNaN` fallback to 2 is unreachable) and its source from `isManualOverride`.
`originalAIFeedback` is `currentGeneralFeedback || defaultAIFeedback` and the
editable text starts as `currentGeneralFeedback || ''`.  `overlaySlot` is one
iteration of the useEffect loop over `Object.entries(currentFeedback)`. -/
def overlaySlot (sl : List ModalSlot) (p : String × FeedbackEntry) : List ModalSlot :=
  match p.2.score with
  | some sc => slotUpsert sl ⟨p.1, sc.num, if p.2.isManualOverride then "human" else "ai"⟩
  | none => sl

/-- EditScoreModal initialisation: defaults for the six fixed sections
overlaid with the score-bearing entries of the current feedback. -/
def modalInit (currentFeedback : List (String × FeedbackEntry)) (maxScore : Int)
    (currentGeneralFeedback : Option String) : ModalState :=
  let d := Int.fdiv maxScore 2
  let defaults := fixedSections.map (fun k => ModalSlot.mk k d "ai")
  { slots := currentFeedback.foldl overlaySlot defaults
    feedbackText := jsOrStr currentGeneralFeedback ""
    originalAIFeedback := jsOrStr currentGeneralFeedback defaultAIFeedback }

/-- EditScoreModal `handleScoreChange`: set the section score and mark the
section human graded. -/
def handleScoreChange (st : ModalState) (k : String) (v : Int) : ModalState :=
  { st with slots := slotUpsert st.slots ⟨k, v, "human"⟩ }

/-- The object passed to `onSave` by the modal's `handleSave`. -/
structure SaveData where
  score : ScoreStr
  meanScore : Int
  slots : List ModalSlot
  feedback : List (String × FeedbackEntry)
  generalFeedback : String
  hasManualOverrides : Bool
  studentId : String
deriving DecidableEq, Repr

/-- EditScoreModal `handleSave`: the mean of all modal score slots is
computed and rounded (both uses of `meanScore` go through `Math.round`);
`hasManualOverrides` is true when some slot source is `'human'`; the updated
feedback starts from `currentFeedback` and rewrites each slot section that
already exists or is human, with score `"slotScore/maxScore"` and the
existing justification text preserved verbatim.  `saveStep` is one iteration
of the `Object.entries(scores).forEach` loop: a section is rewritten only
when it already exists in the evolving feedback object or it is human. -/
def saveStep (currentFeedback : List (String × FeedbackEntry)) (maxScore : Int)
    (fb : List (String × FeedbackEntry)) (s : ModalSlot) : List (String × FeedbackEntry) :=
  let isM := s.source == "human"
  if (objLookup fb s.key).isSome || isM then
    let existingText :=
      match objLookup fb s.key with
      | some e => e.text
      | none =>
        match objLookup currentFeedback s.key with
        | some e => e.text
        | none => ""
    objUpsert fb s.key
      { score := some ⟨s.score, maxScore⟩
        grade := if isM then "Human Graded" else "AI Graded"
        text := existingText
        isManualOverride := isM }
  else fb

/-- EditScoreModal `handleSave` proper. -/
def handleSave (currentFeedback : List (String × FeedbackEntry)) (maxScore : Int)
    (studentId : String) (st : ModalState) : SaveData :=
  let totalScore := (st.slots.map (fun s => s.score)).sum
  let numSections := (st.slots.length : Int)
  let roundedMean := jsRoundDiv totalScore numSections
  let hasManualOverrides := st.slots.any (fun s => s.source == "human")
  let updatedFeedback := st.slots.foldl (saveStep currentFeedback maxScore) currentFeedback
  { score := ⟨roundedMean, maxScore⟩
    meanScore := roundedMean
    slots := st.slots
    feedback := updatedFeedback
    generalFeedback := st.feedbackText
    hasManualOverrides := hasManualOverrides
    studentId := studentId }

/-- ResultsPage `handleSaveScore`, restricted to the student whose id matches
`scoreData.studentId` (the `studentIndex !== -1` branch; all other students
are left unchanged by the surrounding array copy).  The displayed numerator
is `Math.round(meanScore)` on the already-integer mean; `maxScore` becomes 3
unconditionally.  The `scoreData.meanScore || parseFloat(...)` fallback
re-reads the same rounded numerator from the score string. -/
def handleSaveScore (s : Student) (d : SaveData) (now : Nat) : Student :=
  let meanScore := if d.meanScore = 0 then d.score.num else d.meanScore
  { s with
    score := ⟨meanScore, 3⟩
    essayScore := meanScore
    maxScore := 3
    isManualOverride := d.hasManualOverrides
    hasManualOverrides := d.hasManualOverrides
    feedback := d.feedback
    generalFeedback := some d.generalFeedback
    manualOverrideData := some ⟨d.slots, now⟩ }

/-- One full override session on one student: the modal opens on the
deduplicated feedback and the student's `maxScore || 4` (the props passed
from ResultsPage through `getCurrentStudentData`), the reviewer applies a
sequence of `handleScoreChange` edits and optionally retypes the free-text
feedback, and the result of `handleSave` is merged by `handleSaveScore` at
time `now`. -/
def mergeSession (s : Student) (changes : List (String × Int))
    (typed : Option String) (now : Nat) : Student :=
  let currentFeedback := deduplicateFeedback s.feedback
  let maxScore := if s.maxScore = 0 then 4 else s.maxScore
  let st0 := modalInit currentFeedback maxScore s.generalFeedback
  let st1 := changes.foldl (fun st c => handleScoreChange st c.1 c.2) st0
  let st2 :=
    match typed with
    | some t => { st1 with feedbackText := t }
    | none => st1
  handleSaveScore s (handleSave currentFeedback maxScore s.id st2) now

/-- The string shown by the modal as the original AI feedback when it is
opened on a student. -/
def modalOriginalAIFeedback (s : Student) : String :=
  (modalInit (deduplicateFeedback s.feedback)
    (if s.maxScore = 0 then 4 else s.maxScore) s.generalFeedback).originalAIFeedback

/-- The opening highlight markup emitted by `highlightFlaggedContent`. -/
def spanOpen : List Char := "<span class=\"flagged-sentence\">".data

/-- The closing highlight markup emitted by `highlightFlaggedContent`. -/
def spanClose : List Char := "</span>".data

/-- Case-insensitive global literal replacement, the effect of
`text.replace(new RegExp(escaped, 'gi'), '<span ...>$1</span>')` on an
escaped (hence literal) pattern: scan left to right, wrap each
case-insensitive occurrence of `p` in the span markup keeping the original
matched characters (`$1`), and continue after the match.  The fuel argument
(instantiated with the text length) only serves termination; each step
consumes at least one character. -/
def replaceGo (p : List Char) : Nat → List Char → List Char
  | _, [] => []
  | 0, t => t
  | fuel + 1, c :: rest =>
    if p ≠ [] ∧ (p.map Char.toLower).isPrefixOf ((c :: rest).map Char.toLower) then
      spanOpen ++ (c :: rest).take p.length ++ spanClose ++
        replaceGo p fuel ((c :: rest).drop p.length)
    else
      c :: replaceGo p fuel rest

/-- Replacement of all case-insensitive occurrences of `p` in `t`. -/
def replaceAllCI (t : List Char) (p : List Char) : List Char :=
  replaceGo p t.length t

/-- The sort order used on flagged sentences: length descending
(JS comparator `(a, b) => b.length - a.length`). -/
def lenDescRel (a b : String) : Prop := b.length ≤ a.length

instance : DecidableRel lenDescRel := fun _ _ => Nat.decLe _ _

instance : IsTotal String lenDescRel := ⟨fun a b => Nat.le_total b.length a.length⟩

instance : IsTrans String lenDescRel := ⟨fun _ _ _ h h2 => le_trans h2 h⟩

/-- ResultsPage `highlightFlaggedContent`: empty text or no flagged
sentences returns the text unchanged; otherwise the flagged sentences are
sorted by length descending (a stable sort, like the JS array sort) and
each one that is nonempty after trimming is replaced case-insensitively at
all its occurrences.  `insertionSort` is stable, matching the JS sort. -/
def highlightFlaggedContent (text : String) (flaggedSentences : List String) : String :=
  if text = "" || flaggedSentences.isEmpty then text
  else
    let sorted := List.insertionSort lenDescRel flaggedSentences
    let out := sorted.foldl (fun acc fs =>
      if fs != "" && fs.data.any (fun c => !c.isWhitespace) then
        replaceAllCI acc fs.data
      else acc) text.data
    String.mk out

/-- The modal slot state at save time for a session on student `s` with the
given sequence of reviewer score edits. -/
def sessionSlots (s : Student) (changes : List (String × Int)) : List ModalSlot :=
  (changes.foldl (fun st c => handleScoreChange st c.1 c.2)
    (modalInit (deduplicateFeedback s.feedback)
      (if s.maxScore = 0 then 4 else s.maxScore) s.generalFeedback)).slots

/-- The modal slot state induced by opening the modal on student `s` and
touching nothing. -/
def modalSlots (s : Student) : List ModalSlot := sessionSlots s []

/-- The rounded mean over a modal slot list, as computed by `handleSave`. -/
def slotMean (L : List ModalSlot) : Int :=
  jsRoundDiv ((L.map (fun sl => sl.score)).sum) (L.length : Int)

/-- Keys of a modal slot list. -/
def slotKeys (L : List ModalSlot) : List String := L.map ModalSlot.key

/-- The sum of the recorded per-criterion scores (the numerators of the
score strings) of a feedback object. -/
def recordScoreSum (f : List (String × FeedbackEntry)) : Int :=
  (f.map (fun p =>
    match p.2.score with
    | some sc => sc.num
    | none => 0)).sum

/-- The names of the rubric-metric slots that `processStudentResult` turns
into feedback entries (truthy name, score strictly greater than 0), in slot
order. -/
def includedMetricNames (r : RawRecord) : List String :=
  (r.metrics.take 10).filterMap (fun sl =>
    match sl.name, sl.score with
    | some nm, some sc => if nm ≠ "" ∧ 0 < sc then some nm else none
    | _, _ => none)

/-- A student record whose displayed data is merge stable: it is already in
mean mode (`maxScore = 3`), its feedback object is a fixed point of key
deduplication, every modal slot it induces rewrites the feedback object to
itself, its displayed score and essay score equal the rounded mean of its
modal slots, its override flags agree with the slot sources, its general
feedback is present, and its override metadata records exactly its modal
slots.  This is the state every student reaches after two no-touch merges. -/
def MergeStable (s : Student) : Prop :=
  s.maxScore = 3 ∧
  deduplicateFeedback s.feedback = s.feedback ∧
  (∀ sl ∈ modalSlots s, saveStep s.feedback 3 s.feedback sl = s.feedback) ∧
  s.essayScore = slotMean (modalSlots s) ∧
  s.score = ⟨slotMean (modalSlots s), 3⟩ ∧
  s.hasManualOverrides = (modalSlots s).any (fun sl => sl.source == "human") ∧
  s.isManualOverride = s.hasManualOverrides ∧
  s.generalFeedback.isSome = true ∧
  s.manualOverrideData.map OverrideMeta.slots = some (modalSlots s)

instance (s : Student) : Decidable (MergeStable s) := by
  unfold MergeStable
  infer_instance

/-- The trivial original-essay lookup (no uploaded essay data). -/
def noOrig : String → Option OrigEssay := fun _ => none

/-- The worked example of the specification: a raw result with student id
`S1` and one rubric metric `clarity` scored 3 out of a maximum of 4. -/
def exSumMode : ApiResponse :=
  { self := { student_id := some "S1"
              metrics := [{ name := some "clarity", score := some 3 }]
              max_score := some 4 } }

/-- The parsed example student (sum mode, one `clarity` record of 3/4). -/
def exSumStudent : Student := processStudentResult noOrig exSumMode

/-- The example student after the override session of the specification:
`clarity` set to 1 and thereby marked human. -/
def exMerged : Student := mergeSession exSumStudent [("clarity", 1)] none 0

/-- A raw result carrying a truthy record-level `manual_override_applied`
flag while all of its rubric metrics are AI graded. -/
def exOverrideFlag : ApiResponse :=
  { self := { student_id := some "S2"
              manual_override_applied := true
              metrics := [{ name := some "clarity", score := some 3 }] } }

/-- A raw result whose explicit `mean_score` field equals 0 while its
`essay_score` field is 3. -/
def exMeanZero : ApiResponse :=
  { self := { student_id := some "S9"
              mean_score := some 0
              essay_score := some 3 } }

/-- A bare single raw result with no student identifier anywhere. -/
def exBareNoId : ApiResponse := { self := { essay_score := some 3 } }

/-- A raw record with one metric slot whose grading source is `manual`. -/
def exManualSource : RawRecord :=
  { student_id := some "S3"
    metrics := [{ name := some "clarity", score := some 3, gradingSource := some "manual" }] }

/-- The feedback entry that `exManualSource` parses to for `clarity` under
a maximum score of 4. -/
def exManualEntry : FeedbackEntry :=
  ⟨some ⟨3, 4⟩, "Human Graded", "No detailed feedback available.", true⟩

/-- A feedback mapping containing a legacy key, its canonical equivalent and
an unrecognized key. -/
def exDedupIn : List (String × Int) :=
  [("contentUnderstanding", 1), ("content_understanding", 2), ("custom", 3)]

/-! ### Helper lemmas about the embedded JS object operations -/

theorem objLookup_upsert (l : List (String × α)) (k : String) (v : α) (k2 : String) :
    objLookup (objUpsert l k v) k2 = if k = k2 then some v else objLookup l k2 := by
  induction l with
  | nil =>
    by_cases h : k = k2 <;> simp [objUpsert, objLookup, h]
  | cons p r ih =>
    simp only [objUpsert]
    by_cases hp : p.1 = k
    · rw [if_pos hp]
      by_cases h2 : k = k2
      · simp [objLookup, h2]
      · have hpk2 : ¬ p.1 = k2 := by rw [hp]; exact h2
        simp [objLookup, hp, h2, hpk2]
    · rw [if_neg hp]
      by_cases hpk2 : p.1 = k2
      · have h2 : ¬ k = k2 := fun hh => hp (by rw [hh, ← hpk2])
        simp [objLookup, hpk2, h2]
      · simp [objLookup, hpk2, ih]

theorem objUpsert_self (l : List (String × α)) (k : String) (v : α)
    (h : objLookup l k = some v) : objUpsert l k v = l := by
  induction l with
  | nil => simp [objLookup] at h
  | cons p r ih =>
    by_cases hp : p.1 = k
    · have h2 : p.2 = v := by simpa [objLookup, hp] using h
      simp only [objUpsert]
      rw [if_pos hp]
      cases p with
      | mk a b =>
        simp only at hp h2
        rw [hp, h2]
    · have h2 : objLookup r k = some v := by simpa [objLookup, hp] using h
      simp only [objUpsert]
      rw [if_neg hp, ih h2]

theorem objLookup_mem {l : List (String × α)} {k : String} {v : α}
    (h : objLookup l k = some v) : (k, v) ∈ l := by
  induction l with
  | nil => simp [objLookup] at h
  | cons p r ih =>
    cases p with
    | mk a b =>
      by_cases hp : a = k
      · have h2 : b = v := by simpa [objLookup, hp] using h
        rw [hp, h2] at *
        exact List.mem_cons_self _ _
      · have h2 : objLookup r k = some v := by simpa [objLookup, hp] using h
        exact List.mem_cons_of_mem _ (ih h2)

theorem objLookup_eq_none_iff (l : List (String × α)) (k : String) :
    objLookup l k = none ↔ k ∉ objKeys l := by
  induction l with
  | nil => simp [objLookup, objKeys]
  | cons p r ih =>
    by_cases hp : p.1 = k
    · subst hp
      simp [objLookup, objKeys]
    · have h2 : ¬ k = p.1 := fun hh => hp hh.symm
      simp [objLookup, objKeys, hp, h2] at ih ⊢
      exact ih

theorem objKeys_mem_of_mem {l : List (String × α)} {p : String × α}
    (h : p ∈ l) : p.1 ∈ objKeys l := List.mem_map_of_mem Prod.fst h

theorem foldl_fixed {f : β → α → β} {b : β} {l : List α}
    (h : ∀ a ∈ l, f b a = b) : l.foldl f b = b := by
  induction l with
  | nil => rfl
  | cons x xs ih =>
    rw [List.foldl_cons, h x (List.mem_cons_self x xs)]
    exact ih (fun a ha => h a (List.mem_cons_of_mem x ha))

/-! ### Helper lemmas about the modal slot list -/

theorem mem_slotKeys_upsert {r : List ModalSlot} {s : ModalSlot} {k : String}
    (h : k ∈ slotKeys (slotUpsert r s)) : k ∈ slotKeys r ∨ k = s.key := by
  induction r with
  | nil => simpa [slotUpsert, slotKeys] using h
  | cons t x ih =>
    by_cases ht : t.key = s.key
    · simp only [slotUpsert, if_pos ht, slotKeys, List.map_cons, List.mem_cons] at h
      rcases h with h | h
      · exact Or.inr h
      · exact Or.inl (by simp only [slotKeys, List.map_cons, List.mem_cons]; exact Or.inr h)
    · simp only [slotUpsert, if_neg ht, slotKeys, List.map_cons, List.mem_cons] at h
      rcases h with h | h
      · exact Or.inl (by simp only [slotKeys, List.map_cons, List.mem_cons]; exact Or.inl h)
      · rcases ih h with h2 | h2
        · exact Or.inl (by simp only [slotKeys, List.map_cons, List.mem_cons]; exact Or.inr h2)
        · exact Or.inr h2

theorem slotKeys_nodup_upsert {L : List ModalSlot} (h : (slotKeys L).Nodup)
    (s : ModalSlot) : (slotKeys (slotUpsert L s)).Nodup := by
  induction L with
  | nil => simp [slotUpsert, slotKeys]
  | cons t r ih =>
    simp only [slotKeys, List.map_cons, List.nodup_cons] at h
    by_cases ht : t.key = s.key
    · simp only [slotUpsert, if_pos ht, slotKeys, List.map_cons, List.nodup_cons]
      exact ⟨by rw [← ht]; exact h.1, h.2⟩
    · simp only [slotUpsert, if_neg ht, slotKeys, List.map_cons, List.nodup_cons]
      refine ⟨?_, ih h.2⟩
      intro hmem
      rcases mem_slotKeys_upsert hmem with h2 | h2
      · exact h.1 h2
      · exact ht h2

theorem slotKeys_nodup_overlay {cf : List (String × FeedbackEntry)} :
    ∀ {D : List ModalSlot}, (slotKeys D).Nodup → (slotKeys (cf.foldl overlaySlot D)).Nodup := by
  induction cf with
  | nil => intro D h; exact h
  | cons p r ih =>
    intro D h
    rw [List.foldl_cons]
    apply ih
    unfold overlaySlot
    cases hsc : p.2.score with
    | none => exact h
    | some sc => exact slotKeys_nodup_upsert h _

theorem slotKeys_nodup_changes {ch : List (String × Int)} :
    ∀ {st : ModalState}, (slotKeys st.slots).Nodup →
      (slotKeys ((ch.foldl (fun st c => handleScoreChange st c.1 c.2) st).slots)).Nodup := by
  induction ch with
  | nil => intro st h; exact h
  | cons c r ih =>
    intro st h
    rw [List.foldl_cons]
    exact ih (slotKeys_nodup_upsert h _)

theorem slotKeys_map_mk (ks : List String) (d : Int) (src : String) :
    slotKeys (ks.map (fun k => ModalSlot.mk k d src)) = ks := by
  induction ks with
  | nil => rfl
  | cons k r ih =>
    simp only [slotKeys, List.map_cons, List.map_map] at ih ⊢
    rw [ih]

theorem sessionSlots_keys_nodup (s : Student) (ch : List (String × Int)) :
    (slotKeys (sessionSlots s ch)).Nodup := by
  unfold sessionSlots
  apply slotKeys_nodup_changes
  show (slotKeys ((deduplicateFeedback s.feedback).foldl overlaySlot
      (fixedSections.map (fun k => ModalSlot.mk k
        (Int.fdiv (if s.maxScore = 0 then 4 else s.maxScore) 2) "ai")))).Nodup
  apply slotKeys_nodup_overlay
  rw [slotKeys_map_mk]
  decide

/-! ### Helper lemmas about the override merge -/

theorem saveStep_lookup_other (cf : List (String × FeedbackEntry)) (m : Int)
    (fb : List (String × FeedbackEntry)) (sl : ModalSlot) (k : String)
    (h : sl.key ≠ k) : objLookup (saveStep cf m fb sl) k = objLookup fb k := by
  unfold saveStep
  by_cases hc : ((objLookup fb sl.key).isSome || (sl.source == "human")) = true
  · rw [if_pos hc, objLookup_upsert, if_neg h]
  · rw [if_neg hc]

theorem saveStep_lookup_self_human (cf : List (String × FeedbackEntry)) (m : Int)
    (fb : List (String × FeedbackEntry)) (sl : ModalSlot) (h : sl.source = "human") :
    ∃ e : FeedbackEntry, objLookup (saveStep cf m fb sl) sl.key = some e ∧
      e.isManualOverride = true := by
  have hM : (sl.source == "human") = true := by simp [h]
  unfold saveStep
  rw [hM]
  simp only [Bool.or_true, if_true]
  rw [objLookup_upsert, if_pos rfl]
  exact ⟨_, rfl, rfl⟩

theorem foldl_saveStep_lookup_frozen (cf : List (String × FeedbackEntry)) (m : Int) :
    ∀ {L : List ModalSlot} {k : String}, (∀ sl ∈ L, sl.key ≠ k) →
    ∀ fb, objLookup (L.foldl (saveStep cf m) fb) k = objLookup fb k := by
  intro L
  induction L with
  | nil => intro k _ fb; rfl
  | cons sl r ih =>
    intro k h fb
    rw [List.foldl_cons, ih (fun x hx => h x (List.mem_cons_of_mem _ hx))]
    exact saveStep_lookup_other cf m fb sl k (h sl (List.mem_cons_self _ _))

theorem foldl_saveStep_human (cf : List (String × FeedbackEntry)) (m : Int) :
    ∀ {L : List ModalSlot}, (slotKeys L).Nodup →
    ∀ {sl₀ : ModalSlot}, sl₀ ∈ L → sl₀.source = "human" →
    ∀ fb, ∃ e : FeedbackEntry,
      objLookup (L.foldl (saveStep cf m) fb) sl₀.key = some e ∧
        e.isManualOverride = true := by
  intro L
  induction L with
  | nil => intro _ sl₀ hmem; cases hmem
  | cons sl r ih =>
    intro hnd sl₀ hmem hsrc fb
    rw [List.foldl_cons]
    simp only [slotKeys, List.map_cons, List.nodup_cons] at hnd
    rcases List.mem_cons.mp hmem with heq | hmem2
    · subst heq
      have hne : ∀ x ∈ r, x.key ≠ sl₀.key := by
        intro x hx hkx
        exact hnd.1 (hkx ▸ List.mem_map_of_mem ModalSlot.key hx)
      rw [foldl_saveStep_lookup_frozen cf m hne]
      exact saveStep_lookup_self_human cf m fb sl₀ hsrc
    · exact ih (by simpa [slotKeys] using hnd.2) hmem2 hsrc _

theorem mergeSession_fixed_fields (s : Student) (ch : List (String × Int))
    (typed : Option String) (now : Nat) :
    (mergeSession s ch typed now).maxScore = 3 ∧
    (mergeSession s ch typed now).score = ⟨slotMean (sessionSlots s ch), 3⟩ ∧
    (mergeSession s ch typed now).essayScore = slotMean (sessionSlots s ch) := by
  unfold mergeSession handleSaveScore handleSave sessionSlots slotMean
  cases typed <;> simp only [] <;> split <;> simp_all

theorem mergeSession_hasManual (s : Student) (ch : List (String × Int))
    (typed : Option String) (now : Nat) :
    (mergeSession s ch typed now).hasManualOverrides =
      (sessionSlots s ch).any (fun sl => sl.source == "human") := by
  cases typed <;> rfl

theorem mergeSession_feedback_eq (s : Student) (ch : List (String × Int))
    (typed : Option String) (now : Nat) :
    (mergeSession s ch typed now).feedback =
      (sessionSlots s ch).foldl
        (saveStep (deduplicateFeedback s.feedback) (if s.maxScore = 0 then 4 else s.maxScore))
        (deduplicateFeedback s.feedback) := by
  cases typed <;> rfl

theorem mergeSession_aggregate_frame (s : Student) (ch : List (String × Int))
    (typed : Option String) (now : Nat) :
    (mergeSession s ch typed now).aggregateScore = s.aggregateScore := by
  cases typed <;> rfl

theorem mergeSession_generalFeedback_typed (s : Student) (ch : List (String × Int))
    (t : String) (now : Nat) :
    (mergeSession s ch (some t) now).generalFeedback = some t := rfl

theorem modalOriginalAIFeedback_eq (s : Student) :
    modalOriginalAIFeedback s = jsOrStr s.generalFeedback defaultAIFeedback := rfl

/-! ### Helper lemmas about the criterion key normalizer -/

theorem snakeToCamel_camelToSnake {s c : String} (h : snakeToCamel s = some c) :
    camelToSnake c = some s := by
  unfold snakeToCamel at h
  split_ifs at h <;> simp_all <;> subst h <;> decide

theorem camelToSnake_snakeToCamel {c s : String} (h : camelToSnake c = some s) :
    snakeToCamel s = some c := by
  unfold camelToSnake at h
  split_ifs at h <;> simp_all <;> subst h <;> decide

theorem camelToSnake_underscore {c s : String} (h : camelToSnake c = some s) :
    hasUnderscore c = false ∧ hasUnderscore s = true := by
  unfold camelToSnake at h
  split_ifs at h <;> simp_all <;> subst h <;> constructor <;> decide

theorem mem_deduplicateFeedback {α : Type} (f : List (String × α)) (k : String) (v : α) :
    (k, v) ∈ deduplicateFeedback f ↔
      ((k, v) ∈ f ∧ (hasUnderscore k = true ∨
        ∀ sn, camelToSnake k = some sn → sn ∉ objKeys f)) := by
  unfold deduplicateFeedback
  simp only [List.mem_append, List.mem_filter]
  constructor
  · rintro (⟨hmem, hu⟩ | ⟨hmem, hcond⟩)
    · exact ⟨hmem, Or.inl hu⟩
    · refine ⟨hmem, Or.inr ?_⟩
      intro sn hsn hk
      simp only [Bool.and_eq_true, Bool.not_eq_true'] at hcond
      rcases hcond with ⟨⟨hu, _⟩, hmatch⟩
      rw [hsn] at hmatch
      rw [Option.isNone_iff_eq_none, objLookup_eq_none_iff] at hmatch
      exact hmatch hk
  · rintro ⟨hmem, hu | hforall⟩
    · exact Or.inl ⟨hmem, hu⟩
    · by_cases hund : hasUnderscore k = true
      · exact Or.inl ⟨hmem, hund⟩
      · refine Or.inr ⟨hmem, ?_⟩
        simp only [Bool.and_eq_true, Bool.not_eq_true']
        refine ⟨⟨by simpa using hund, ?_⟩, ?_⟩
        · -- not in processed list
          rw [Bool.eq_false_iff]
          intro hproc
          replace hproc : k ∈ (List.filter (fun p => hasUnderscore p.1) f).flatMap
              (fun p => p.1 :: (snakeToCamel p.1).toList) := List.elem_iff.mp hproc
          rw [List.mem_flatMap] at hproc
          rcases hproc with ⟨p, hp, hkp⟩
          rw [List.mem_filter] at hp
          rcases List.mem_cons.mp hkp with heq | hsc
          · subst heq
            rw [hp.2] at hund
            exact hund rfl
          · rcases Option.mem_toList.mp hsc with hsc2
            have hpair := snakeToCamel_camelToSnake hsc2
            exact hforall p.1 hpair (objKeys_mem_of_mem hp.1)
        · cases hmatch : camelToSnake k with
          | none => rfl
          | some sn =>
            rw [Option.isNone_iff_eq_none, objLookup_eq_none_iff]
            exact hforall sn hmatch

theorem dedup_subset {α : Type} {f : List (String × α)} {p : String × α}
    (h : p ∈ deduplicateFeedback f) : p ∈ f := by
  unfold deduplicateFeedback at h
  rcases List.mem_append.mp h with h2 | h2 <;> exact (List.mem_filter.mp h2).1

theorem dedup_keys_nodup {α : Type} {f : List (String × α)}
    (h : (objKeys f).Nodup) : (objKeys (deduplicateFeedback f)).Nodup := by
  unfold deduplicateFeedback
  simp only [objKeys, List.map_append]
  refine List.Nodup.append ?_ ?_ ?_
  · exact h.sublist (List.Sublist.map Prod.fst (List.filter_sublist f))
  · exact h.sublist (List.Sublist.map Prod.fst (List.filter_sublist f))
  · intro k hk1 hk2
    rcases List.mem_map.mp hk1 with ⟨p, hp, hpk⟩
    rcases List.mem_map.mp hk2 with ⟨q, hq, hqk⟩
    have h1 := (List.mem_filter.mp hp).2
    have h2 := (List.mem_filter.mp hq).2
    simp only [Bool.and_eq_true, Bool.not_eq_true'] at h2
    rw [hpk] at h1
    rw [hqk] at h2
    rw [h1] at h2
    exact absurd h2.1.1 (by simp)

theorem dedup_nodup {α : Type} {f : List (String × α)}
    (h : (objKeys f).Nodup) : (deduplicateFeedback f).Nodup :=
  (dedup_keys_nodup h).of_map

theorem dedup_perm {α : Type} {f g : List (String × α)}
    (hf : (objKeys f).Nodup) (hg : (objKeys g).Nodup) (hfg : f.Perm g) :
    (deduplicateFeedback f).Perm (deduplicateFeedback g) := by
  rw [List.perm_ext_iff_of_nodup (dedup_nodup hf) (dedup_nodup hg)]
  rintro ⟨k, v⟩
  rw [mem_deduplicateFeedback, mem_deduplicateFeedback]
  have hkeys : ∀ sn : String, sn ∈ objKeys f ↔ sn ∈ objKeys g :=
    fun sn => (hfg.map Prod.fst).mem_iff
  constructor
  · rintro ⟨hm, hc⟩
    refine ⟨hfg.mem_iff.mp hm, ?_⟩
    rcases hc with hc | hc
    · exact Or.inl hc
    · exact Or.inr (fun sn hsn hmem => hc sn hsn ((hkeys sn).mpr hmem))
  · rintro ⟨hm, hc⟩
    refine ⟨hfg.mem_iff.mpr hm, ?_⟩
    rcases hc with hc | hc
    · exact Or.inl hc
    · exact Or.inr (fun sn hsn hmem => hc sn hsn ((hkeys sn).mp hmem))

/-! ### Helper lemmas about the submission parser -/

theorem objUpsert_append {α : Type} {l : List (String × α)} {k : String} {v : α}
    (h : k ∉ objKeys l) : objUpsert l k v = l ++ [(k, v)] := by
  induction l with
  | nil => rfl
  | cons p r ih =>
    simp only [objKeys, List.map_cons, List.mem_cons] at h
    push_neg at h
    simp only [objUpsert]
    rw [if_neg (fun hh => h.1 hh.symm), ih (by simpa [objKeys] using h.2)]
    rfl

theorem mem_objUpsert {α : Type} {l : List (String × α)} {k : String} {v : α}
    {p : String × α} (h : p ∈ objUpsert l k v) : p ∈ l ∨ p = (k, v) := by
  induction l with
  | nil => simpa [objUpsert] using h
  | cons q r ih =>
    simp only [objUpsert] at h
    by_cases hq : q.1 = k
    · rw [if_pos hq] at h
      rcases List.mem_cons.mp h with h2 | h2
      · exact Or.inr h2
      · exact Or.inl (List.mem_cons_of_mem _ h2)
    · rw [if_neg hq] at h
      rcases List.mem_cons.mp h with h2 | h2
      · exact Or.inl (h2 ▸ List.mem_cons_self _ _)
      · rcases ih h2 with h3 | h3
        · exact Or.inl (List.mem_cons_of_mem _ h3)
        · exact Or.inr h3

theorem recordScoreSum_append (l1 l2 : List (String × FeedbackEntry)) :
    recordScoreSum (l1 ++ l2) = recordScoreSum l1 + recordScoreSum l2 := by
  unfold recordScoreSum
  rw [List.map_append, List.sum_append]

/-- The name selected by the inclusion test of the rubric-metric loop. -/
def includedName (sl : MetricSlot) : Option String :=
  match sl.name, sl.score with
  | some nm, some sc => if nm ≠ "" ∧ 0 < sc then some nm else none
  | _, _ => none

theorem metric_fold_total (justs : List (String × String)) (m : Int) :
    ∀ (L : List MetricSlot) (acc : FeedbackAcc),
      acc.total = recordScoreSum acc.feedback →
      (L.filterMap includedName).Nodup →
      (∀ k ∈ objKeys acc.feedback, k ∉ L.filterMap includedName) →
      (L.foldl (metricStep justs m) acc).total =
        recordScoreSum ((L.foldl (metricStep justs m) acc).feedback) := by
  intro L
  induction L with
  | nil => intro acc h _ _; exact h
  | cons sl r ih =>
    intro acc h hnd hdisj
    rw [List.foldl_cons]
    cases hname : sl.name with
    | none =>
      have hstep : metricStep justs m acc sl = acc := by
        simp only [metricStep, hname]
      have hinc : includedName sl = none := by
        simp only [includedName, hname]
      rw [hstep]
      refine ih acc h ?_ ?_
      · simpa [List.filterMap_cons, hinc] using hnd
      · simpa [List.filterMap_cons, hinc] using hdisj
    | some nm =>
      cases hsc : sl.score with
      | none =>
        have hstep : metricStep justs m acc sl = acc := by
          simp only [metricStep, hname, hsc]
        have hinc : includedName sl = none := by
          simp only [includedName, hname, hsc]
        rw [hstep]
        refine ih acc h ?_ ?_
        · simpa [List.filterMap_cons, hinc] using hnd
        · simpa [List.filterMap_cons, hinc] using hdisj
      | some sc =>
        by_cases hok : nm ≠ "" ∧ 0 < sc
        · have hinc : includedName sl = some nm := by
            simp only [includedName, hname, hsc]; rw [if_pos hok]
          have hnotin : nm ∉ objKeys acc.feedback := by
            intro hmem
            exact hdisj nm hmem (by
              rw [List.filterMap_cons, hinc]
              exact List.mem_cons_self _ _)
          have hstep : metricStep justs m acc sl =
              { feedback := acc.feedback ++
                  [(nm, { score := some ⟨sc, m⟩
                          grade := if ((jsOrStr sl.gradingSource "ai") == "human"
                              || (jsOrStr sl.gradingSource "ai") == "manual") then "Human Graded" else "AI Graded"
                          text := jsOrStr (objLookup justs nm) "No detailed feedback available."
                          isManualOverride := ((jsOrStr sl.gradingSource "ai") == "human"
                              || (jsOrStr sl.gradingSource "ai") == "manual") })]
                total := acc.total + sc
                count := acc.count + 1 } := by
            simp only [metricStep, hname, hsc]
            rw [if_pos hok, objUpsert_append hnotin]
          rw [hstep]
          rw [List.filterMap_cons, hinc] at hnd hdisj
          refine ih _ ?_ (List.nodup_cons.mp hnd).2 ?_
          · simp only [recordScoreSum_append, h, recordScoreSum]
            simp
          · intro k hk
            simp only [objKeys, List.map_append] at hk
            rcases List.mem_append.mp hk with hk2 | hk2
            · exact fun hmem => hdisj k hk2 (List.mem_cons_of_mem _ hmem)
            · simp only [List.map_cons, List.map_nil, List.mem_singleton] at hk2
              subst hk2
              exact (List.nodup_cons.mp hnd).1
        · have hstep : metricStep justs m acc sl = acc := by
            simp only [metricStep, hname, hsc]; rw [if_neg hok]
          have hinc : includedName sl = none := by
            simp only [includedName, hname, hsc]; rw [if_neg hok]
          rw [hstep]
          refine ih acc h ?_ ?_
          · simpa [List.filterMap_cons, hinc] using hnd
          · simpa [List.filterMap_cons, hinc] using hdisj

theorem metric_fold_score_pos (justs : List (String × String)) (m : Int) :
    ∀ (L : List MetricSlot) (acc : FeedbackAcc),
      (∀ p ∈ acc.feedback, ∀ sc, p.2.score = some sc → 0 < sc.num) →
      (∀ p ∈ (L.foldl (metricStep justs m) acc).feedback, ∀ sc,
        p.2.score = some sc → 0 < sc.num) := by
  intro L
  induction L with
  | nil => intro acc h; exact h
  | cons sl r ih =>
    intro acc h
    rw [List.foldl_cons]
    refine ih _ ?_
    intro p hp sc hsc
    rcases hn : sl.name with _ | nm
    · simp only [metricStep, hn] at hp
      exact h p hp sc hsc
    · rcases hs : sl.score with _ | v
      · simp only [metricStep, hn, hs] at hp
        exact h p hp sc hsc
      · simp only [metricStep, hn, hs] at hp
        by_cases hok : nm ≠ "" ∧ 0 < v
        · rw [if_pos hok] at hp
          rcases mem_objUpsert hp with h2 | h2
          · exact h p h2 sc hsc
          · subst h2
            simp only at hsc
            cases hsc
            exact hok.2
        · rw [if_neg hok] at hp
          exact h p hp sc hsc

theorem metric_fold_provenance (justs : List (String × String)) (m : Int) :
    ∀ (L : List MetricSlot) (acc : FeedbackAcc) (k : String) (e : FeedbackEntry),
      objLookup (L.foldl (metricStep justs m) acc).feedback k = some e →
      (objLookup acc.feedback k = some e ∨
        ∃ sl ∈ L, sl.name = some k ∧ (∃ sc, sl.score = some sc ∧ 0 < sc) ∧
          e.isManualOverride = ((jsOrStr sl.gradingSource "ai") == "human"
            || (jsOrStr sl.gradingSource "ai") == "manual")) := by
  intro L
  induction L with
  | nil => intro acc k e h; exact Or.inl h
  | cons sl r ih =>
    intro acc k e h
    rw [List.foldl_cons] at h
    rcases ih _ k e h with h2 | h2
    · rcases hn : sl.name with _ | nm
      · simp only [metricStep, hn] at h2
        exact Or.inl h2
      · rcases hs : sl.score with _ | v
        · simp only [metricStep, hn, hs] at h2
          exact Or.inl h2
        · simp only [metricStep, hn, hs] at h2
          by_cases hok : nm ≠ "" ∧ 0 < v
          · rw [if_pos hok] at h2
            simp only [objLookup_upsert] at h2
            by_cases hk : nm = k
            · rw [if_pos hk] at h2
              refine Or.inr ⟨sl, List.mem_cons_self _ _, by rw [hn, hk], ⟨v, hs, hok.2⟩, ?_⟩
              cases h2
              rfl
            · rw [if_neg hk] at h2
              exact Or.inl h2
          · rw [if_neg hok] at h2
            exact Or.inl h2
    · rcases h2 with ⟨x, hx, rest⟩
      exact Or.inr ⟨x, List.mem_cons_of_mem _ hx, rest⟩

/-! ### Merge stability -/

attribute [ext] ScoreStr FeedbackEntry Student

theorem jsOrStr_some_empty (g : String) : jsOrStr (some g) "" = g := by
  unfold jsOrStr
  split <;> simp_all

theorem jsOrStr_of_falsy {x : Option String} {y : String}
    (h : strTruthy x = false) : jsOrStr x y = y := by
  cases x with
  | none => rfl
  | some s =>
    simp only [strTruthy, bne_eq_false_iff_eq] at h
    simp [jsOrStr, h]

/-! ### Claims -/

/-- Claim C1, counterexample: merging the override `clarity := 1` (marked
human) into the example Submission (single ScoreRecord `clarity` 3/4) does
not produce the claimed mean score 1/3 — the displayed score is 2/3, the
rounded mean over all seven modal slots (six defaulted sections at 2 plus
`clarity` at 1). -/
theorem C1_counterexample :
    exMerged.score ≠ ⟨1, 3⟩ ∧ exMerged.score = ⟨2, 3⟩ ∧ exMerged.essayScore = 2 :=
  ⟨by decide, by decide, by decide⟩

/-- Claim C1 (amended): after any override session the Submission is stored
with mean semantics (`maxScore` 3, denominator 3) irreversibly, but the
recorded mean is the rounded average over the modal score slots — the six
fixed rubric sections (defaulted to `floor(maxScore/2)` when absent from the
feedback) plus any further score-bearing feedback keys — not the mean of the
Submission ScoreRecords alone.  On the worked example the merge yields
ScoreRecord (clarity, 1, human) and displayed score 2/3. -/
theorem C1_amended :
    (∀ (s : Student) (ch : List (String × Int)) (typed : Option String) (now : Nat),
      (mergeSession s ch typed now).maxScore = 3 ∧
      (mergeSession s ch typed now).score = ⟨slotMean (sessionSlots s ch), 3⟩ ∧
      (mergeSession s ch typed now).essayScore = slotMean (sessionSlots s ch)) ∧
    objLookup exMerged.feedback "clarity" =
      some ⟨some ⟨1, 4⟩, "Human Graded", "No detailed feedback available.", true⟩ ∧
    exMerged.score = ⟨2, 3⟩ ∧
    exMerged.hasManualOverrides = true :=
  ⟨mergeSession_fixed_fields, by decide, by decide, by decide⟩

/-- Claim C2, counterexample: a raw record with a truthy record-level
`manual_override_applied` flag and only AI-graded metrics parses to a
Submission whose `hasManualOverrides` flag is true although none of its
ScoreRecords has human provenance — the claimed iff fails. -/
theorem C2_counterexample :
    (processStudentResult noOrig exOverrideFlag).hasManualOverrides = true ∧
    ∀ p ∈ (processStudentResult noOrig exOverrideFlag).feedback,
      p.2.isManualOverride = false :=
  ⟨by decide, by decide⟩

/-- Claim C2 (amended): for parsed Submissions, `hasManualOverrides` is the
disjunction of some pre-deduplication feedback entry being human and the raw
record-level `manual_override_applied` / `has_manual_overrides` flags; for
merged Submissions it is true exactly when some modal slot source is human,
and in that case at least one stored ScoreRecord has human provenance. -/
theorem C2_amended :
    (∀ (fo : String → Option OrigEssay) (a : ApiResponse),
      (processStudentResult fo a).hasManualOverrides =
        ((buildFeedback (effRec a) ((processStudentResult fo a).maxScore)).feedback.any
            (fun p => p.2.isManualOverride)
          || (effRec a).manual_override_applied || (effRec a).has_manual_overrides)) ∧
    (∀ (s : Student) (ch : List (String × Int)) (typed : Option String) (now : Nat),
      (mergeSession s ch typed now).hasManualOverrides =
        (sessionSlots s ch).any (fun sl => sl.source == "human")) ∧
    (∀ (s : Student) (ch : List (String × Int)) (typed : Option String) (now : Nat),
      (mergeSession s ch typed now).hasManualOverrides = true →
      ∃ p ∈ (mergeSession s ch typed now).feedback, p.2.isManualOverride = true) := by
  refine ⟨fun fo a => rfl, mergeSession_hasManual, ?_⟩
  intro s ch typed now hman
  rw [mergeSession_hasManual] at hman
  rcases List.any_eq_true.mp hman with ⟨sl, hsl, hsrc⟩
  have hsrc2 : sl.source = "human" := by simpa using hsrc
  rcases foldl_saveStep_human (deduplicateFeedback s.feedback)
      (if s.maxScore = 0 then 4 else s.maxScore)
      (sessionSlots_keys_nodup s ch) hsl hsrc2 (deduplicateFeedback s.feedback) with ⟨e, he, hm⟩
  refine ⟨(sl.key, e), ?_, hm⟩
  rw [mergeSession_feedback_eq]
  exact objLookup_mem he

/-- Claim C2 witness: the merge of the worked example has a human record. -/
theorem C2_amended_witness :
    ∃ p ∈ (mergeSession exSumStudent [("clarity", 1)] none 0).feedback,
      p.2.isManualOverride = true :=
  C2_amended.2.2 exSumStudent [("clarity", 1)] none 0 (by decide)

/-- Claim C3, counterexample: after the example override merge the stored
`aggregateScore` keeps its pre-merge value 3 while the sum of the current
ScoreRecord scores is 1 — the aggregate invariant does not survive the
Override Merger. -/
theorem C3_counterexample :
    exMerged.aggregateScore = 3 ∧ recordScoreSum exMerged.feedback = 1 ∧
      exMerged.aggregateScore ≠ recordScoreSum exMerged.feedback :=
  ⟨by decide, by decide, by decide⟩

/-- Claim C3 (amended): after parsing, `aggregateScore` equals the sum of the
stored ScoreRecord scores provided the included metric names are distinct and
key deduplication removes nothing, and every stored ScoreRecord score is
strictly positive (zero-scored slots are dropped; no upper bound is
enforced).  The Override Merger never recomputes `aggregateScore`: it keeps
its pre-merge value, so after an edit it can differ from the sum of the
current ScoreRecords. -/
theorem C3_amended :
    (∀ (fo : String → Option OrigEssay) (a : ApiResponse),
      (includedMetricNames (effRec a)).Nodup →
      deduplicateFeedback
          (buildFeedback (effRec a) ((processStudentResult fo a).maxScore)).feedback =
        (buildFeedback (effRec a) ((processStudentResult fo a).maxScore)).feedback →
      (processStudentResult fo a).aggregateScore =
        recordScoreSum ((processStudentResult fo a).feedback)) ∧
    (∀ (fo : String → Option OrigEssay) (a : ApiResponse),
      ∀ p ∈ (processStudentResult fo a).feedback, ∀ sc, p.2.score = some sc → 0 < sc.num) ∧
    (∀ (s : Student) (ch : List (String × Int)) (typed : Option String) (now : Nat),
      (mergeSession s ch typed now).aggregateScore = s.aggregateScore) := by
  refine ⟨?_, ?_, mergeSession_aggregate_frame⟩
  · intro fo a hnd hded
    have h1 : (processStudentResult fo a).aggregateScore =
        (buildFeedback (effRec a) ((processStudentResult fo a).maxScore)).total := rfl
    have h2 : (processStudentResult fo a).feedback =
        deduplicateFeedback
          (buildFeedback (effRec a) ((processStudentResult fo a).maxScore)).feedback := rfl
    rw [h1, h2, hded]
    refine metric_fold_total (effRec a).metric_justifications
      ((processStudentResult fo a).maxScore) ((effRec a).metrics.take 10) ⟨[], 0, 0⟩ rfl hnd ?_
    intro k hk
    simp [objKeys] at hk
  · intro fo a p hp sc hsc
    have hp2 : p ∈ (buildFeedback (effRec a) ((processStudentResult fo a).maxScore)).feedback :=
      dedup_subset hp
    refine metric_fold_score_pos (effRec a).metric_justifications
      ((processStudentResult fo a).maxScore) ((effRec a).metrics.take 10) ⟨[], 0, 0⟩ ?_ p hp2 sc hsc
    intro q hq
    simp at hq

/-- Claim C3 witness: on the worked example (distinct metric names, nothing
deduplicated) the parsed aggregate equals the record sum. -/
theorem C3_amended_witness :
    (processStudentResult noOrig exSumMode).aggregateScore =
      recordScoreSum ((processStudentResult noOrig exSumMode).feedback) :=
  C3_amended.1 noOrig exSumMode (by decide) (by decide)

/-- Claim C4, counterexample: on the freshly parsed example the modal shows
the hard-coded default AI feedback as the original; after one override with
reviewer text, reopening the modal shows the reviewer text as the
`Original AI Feedback` — the AI original is not retrievable any more. -/
theorem C4_counterexample :
    modalOriginalAIFeedback exSumStudent = defaultAIFeedback ∧
    modalOriginalAIFeedback
        (mergeSession exSumStudent [("clarity", 1)] (some "Reviewer note.") 0) =
      "Reviewer note." ∧
    ("Reviewer note." : String) ≠ defaultAIFeedback :=
  ⟨by decide, by decide, by decide⟩

/-- Claim C4 (amended): an override session stores the reviewer text as the
Submission general feedback, and the modal of any later session displays
exactly that stored text (or the hard-coded default when it is empty) as the
`Original AI Feedback` — the AI-authored original is not retained anywhere. -/
theorem C4_amended (s : Student) (ch : List (String × Int)) (t : String) (now : Nat) :
    (mergeSession s ch (some t) now).generalFeedback = some t ∧
    modalOriginalAIFeedback (mergeSession s ch (some t) now) =
      (if t = "" then defaultAIFeedback else t) := by
  refine ⟨mergeSession_generalFeedback_typed s ch t now, ?_⟩
  rw [modalOriginalAIFeedback_eq, mergeSession_generalFeedback_typed]
  rfl

/-- Claim C5, counterexample: a no-touch re-merge (the override map equals
the current scores, nothing marked touched) of the once-merged example
changes the displayed score from 2/3 to 1/3 — the merge is not idempotent. -/
theorem C5_counterexample :
    (mergeSession (mergeSession exSumStudent [] none 0) [] none 1).score = ⟨1, 3⟩ ∧
    (mergeSession exSumStudent [] none 0).score = ⟨2, 3⟩ ∧
    (mergeSession (mergeSession exSumStudent [] none 0) [] none 1).score ≠
      (mergeSession exSumStudent [] none 0).score :=
  ⟨by decide, by decide, by decide⟩

/-- Claim C5 (amended): the no-touch merge is idempotent only on merge-stable
Submissions (already in mean mode with all displayed data consistent with the
modal slots they induce, the state reached after two merges): there it
changes nothing but the override timestamp.  On a freshly parsed sum-mode
Submission the first re-merge changes the displayed score. -/
theorem C5_amended (s : Student) (h : MergeStable s) (now : Nat) :
    mergeSession s [] none now =
      { s with manualOverrideData := some ⟨modalSlots s, now⟩ } := by
  obtain ⟨h1, h2, h3, h4, h5, h6, h7, h8, h9⟩ := h
  have hm : (if s.maxScore = 0 then 4 else s.maxScore) = 3 := by rw [h1]; rfl
  rcases Option.isSome_iff_exists.mp h8 with ⟨g, hg⟩
  have hfb : (mergeSession s [] none now).feedback = s.feedback := by
    rw [mergeSession_feedback_eq, h2, hm]
    exact foldl_fixed h3
  have hfix := mergeSession_fixed_fields s [] none now
  ext1
  · rfl
  · rfl
  · exact (hfix.2.1).trans h5.symm
  · exact (hfix.2.2).trans h4.symm
  · exact (hfix.1).trans h1.symm
  · rfl
  · rfl
  · rfl
  · rfl
  · exact hfb
  · rfl
  · rfl
  · rfl
  · rfl
  · rfl
  · rfl
  · rfl
  · rfl
  · rfl
  · rfl
  · rfl
  · rfl
  · exact h6.symm
  · exact (h7.trans h6).symm
  · show some (jsOrStr s.generalFeedback "") = s.generalFeedback
    rw [hg, jsOrStr_some_empty]
  · rfl

/-- Claim C5 witness: the twice-merged example Submission is merge stable and
a further no-touch merge only refreshes the override timestamp. -/
theorem C5_amended_witness :
    MergeStable (mergeSession (mergeSession exSumStudent [] none 0) [] none 1) ∧
    mergeSession (mergeSession (mergeSession exSumStudent [] none 0) [] none 1) [] none 7 =
      { mergeSession (mergeSession exSumStudent [] none 0) [] none 1 with
        manualOverrideData := some
          ⟨modalSlots (mergeSession (mergeSession exSumStudent [] none 0) [] none 1), 7⟩ } :=
  ⟨by decide, C5_amended _ (by decide) 7⟩

/-- Claim C6: the normalizer keeps exactly the canonical (underscore) keys
plus those legacy keys whose canonical equivalent is absent, passes all other
keys through, never keeps both forms of one criterion, and its output is
order independent as an entry set. -/
theorem C6_normalizer {α : Type} (f : List (String × α)) (hf : (objKeys f).Nodup) :
    (∀ (k : String) (v : α), (k, v) ∈ deduplicateFeedback f ↔
      ((k, v) ∈ f ∧ (hasUnderscore k = true ∨
        ∀ sn, camelToSnake k = some sn → sn ∉ objKeys f))) ∧
    (∀ (c sn : String), camelToSnake c = some sn →
      ¬(c ∈ objKeys (deduplicateFeedback f) ∧ sn ∈ objKeys (deduplicateFeedback f))) ∧
    (∀ g : List (String × α), (objKeys g).Nodup → f.Perm g →
      (deduplicateFeedback f).Perm (deduplicateFeedback g)) := by
  refine ⟨fun k v => mem_deduplicateFeedback f k v, ?_, fun g hg hp => dedup_perm hf hg hp⟩
  rintro c sn hcs ⟨hc, hs⟩
  rcases List.mem_map.mp hc with ⟨p, hp, hpk⟩
  obtain ⟨k, v⟩ := p
  simp only at hpk
  subst hpk
  rcases (mem_deduplicateFeedback f k v).mp hp with ⟨hmem, hcase⟩
  rcases hcase with hu | hforall
  · rw [(camelToSnake_underscore hcs).1] at hu
    cases hu
  · rcases List.mem_map.mp hs with ⟨q, hq, hqk⟩
    exact hforall sn hcs (hqk ▸ objKeys_mem_of_mem (dedup_subset hq))

/-- Claim C6 witness: on a concrete mapping with a legacy key, its canonical
equivalent and an unrecognized key, the membership characterisation holds at
the unrecognized key. -/
theorem C6_normalizer_witness :
    ("custom", (3 : Int)) ∈ deduplicateFeedback exDedupIn ↔
      (("custom", (3 : Int)) ∈ exDedupIn ∧ (hasUnderscore "custom" = true ∨
        ∀ sn, camelToSnake "custom" = some sn → sn ∉ objKeys exDedupIn)) :=
  (C6_normalizer exDedupIn (by decide)).1 "custom" 3

/-- Claim C7, counterexample: with both `SPARTA` and `SPARTAN` flagged on the
text `SPARTAN`, the longer phrase is wrapped first but the shorter one is
then wrapped again inside the already-wrapped match, producing nested span
markup (the output begins with two consecutive opening spans). -/
theorem C7_counterexample :
    highlightFlaggedContent "SPARTAN" ["SPARTA", "SPARTAN"] =
      "<span class=\"flagged-sentence\"><span class=\"flagged-sentence\">SPARTA</span>N</span>" ∧
    (spanOpen ++ spanOpen).isPrefixOf
      (highlightFlaggedContent "SPARTAN" ["SPARTA", "SPARTAN"]).data = true :=
  ⟨by decide, by decide⟩

/-- Claim C7 (amended): the highlighter does sort the flagged substrings by
length descending before matching (so the longer flagged phrase is wrapped
first and wraps cleanly on its own), but a shorter flagged substring that
occurs inside the text of an already-wrapped longer match is still
independently wrapped, producing nested markup on the SPARTA/SPARTAN
example. -/
theorem C7_amended :
    (∀ fs : List String, List.Sorted lenDescRel (List.insertionSort lenDescRel fs) ∧
      (List.insertionSort lenDescRel fs).Perm fs) ∧
    highlightFlaggedContent "SPARTAN" ["SPARTAN"] =
      "<span class=\"flagged-sentence\">SPARTAN</span>" ∧
    highlightFlaggedContent "SPARTAN" ["SPARTA", "SPARTAN"] =
      "<span class=\"flagged-sentence\"><span class=\"flagged-sentence\">SPARTA</span>N</span>" :=
  ⟨fun fs => ⟨List.sorted_insertionSort lenDescRel fs, List.perm_insertionSort lenDescRel fs⟩,
    by decide, by decide⟩

/-- Claim C8, counterexample: a bare single raw result with no student
identifier anywhere yields no Submission at all from `processResults` — not
a Submission with a placeholder identifier. -/
theorem C8_counterexample :
    processResults noOrig (.obj exBareNoId none) = [] := by decide

/-- Claim C8 (amended): batch members are each parsed (one bad record never
aborts the batch) and a batch member with no derivable identifier gets the
placeholder `Unknown`; but a bare or wrapped single record whose top-level
`student_id` is falsy is dispatched to the `results` branch and yields no
Submission at all when that array is absent. -/
theorem C8_amended :
    (∀ (fo : String → Option OrigEssay) (xs : List ApiResponse),
      processResults fo (.arr xs) = xs.map (processStudentResult fo)) ∧
    (∀ (fo : String → Option OrigEssay) (a : ApiResponse),
      strTruthy a.self.student_id = false → strTruthy (effRec a).student_id = false →
      (processStudentResult fo a).id = "Unknown") ∧
    (∀ (fo : String → Option OrigEssay) (top : ApiResponse) (res : Option (List ApiResponse)),
      strTruthy top.self.student_id = false →
      processResults fo (.obj top res) = (res.getD []).map (processStudentResult fo)) := by
  refine ⟨fun fo xs => rfl, ?_, ?_⟩
  · intro fo a h1 h2
    show jsOrStr a.self.student_id (jsOrStr (effRec a).student_id "Unknown") = "Unknown"
    rw [jsOrStr_of_falsy h2, jsOrStr_of_falsy h1]
  · intro fo top res h
    cases res <;> simp [processResults, h]

/-- Claim C8 witness: the bare no-identifier record parses (when reached
directly) to the placeholder identifier. -/
theorem C8_amended_witness :
    (processStudentResult noOrig exBareNoId).id = "Unknown" :=
  C8_amended.2.1 noOrig exBareNoId (by decide) (by decide)

/-- Claim C9: whenever the explicit `mean_score` field of a raw record equals
0, the parser selects mean semantics (`maxScore` 3) because the field is
present, while the numeric score falls back through `essay_score` and `score`
(defaulting to 0) because 0 is falsy — pairing a sum-mode numerator with a
mean-mode denominator. -/
theorem C9_mean_zero (fo : String → Option OrigEssay) (a : ApiResponse)
    (h : (effRec a).mean_score = some 0) :
    (processStudentResult fo a).maxScore = 3 ∧
    (processStudentResult fo a).essayScore =
      jsOrZ (effRec a).essay_score (jsOrZ (effRec a).score 0) ∧
    (processStudentResult fo a).score =
      ⟨jsOrZ (effRec a).essay_score (jsOrZ (effRec a).score 0), 3⟩ := by
  have hsome : (effRec a).mean_score.isSome = true := by rw [h]; rfl
  have hmax : (processStudentResult fo a).maxScore = 3 := by
    show (if ((effRec a).manual_override_applied || (effRec a).mean_score.isSome) = true
        then (3 : Int) else jsOrZ (effRec a).max_score 4) = 3
    rw [hsome, Bool.or_true]
    rfl
  have hez : (processStudentResult fo a).essayScore =
      jsOrZ (effRec a).essay_score (jsOrZ (effRec a).score 0) := by
    show jsOrZ (effRec a).mean_score (jsOrZ (effRec a).essay_score (jsOrZ (effRec a).score 0)) = _
    rw [h]
    rfl
  have hs : (processStudentResult fo a).score =
      ⟨(processStudentResult fo a).essayScore, (processStudentResult fo a).maxScore⟩ := rfl
  exact ⟨hmax, hez, by rw [hs, hez, hmax]⟩

/-- Claim C9 witness: a record with `mean_score` 0 and `essay_score` 3 parses
to the displayed score 3/3. -/
theorem C9_mean_zero_witness :
    (processStudentResult noOrig exMeanZero).maxScore = 3 ∧
    (processStudentResult noOrig exMeanZero).essayScore =
      jsOrZ (effRec exMeanZero).essay_score (jsOrZ (effRec exMeanZero).score 0) ∧
    (processStudentResult noOrig exMeanZero).score =
      ⟨jsOrZ (effRec exMeanZero).essay_score (jsOrZ (effRec exMeanZero).score 0), 3⟩ :=
  C9_mean_zero noOrig exMeanZero (by decide)

/-- Claim C10: every parsed feedback entry carries human provenance exactly
when the grading source of a producing rubric-metric slot, after the falsy
fallback to `ai`, equals `human` or `manual`; that condition is equivalent to
the raw field being literally `human` or `manual` (any other value, the empty
string or an absent field yields `ai`), and a human entry marks the whole
Submission as manually overridden. -/
theorem C10_provenance :
    (∀ (r : RawRecord) (m : Int) (k : String) (e : FeedbackEntry),
      objLookup (buildFeedback r m).feedback k = some e →
      ∃ sl ∈ r.metrics.take 10, sl.name = some k ∧
        (∃ sc, sl.score = some sc ∧ 0 < sc) ∧
        e.isManualOverride = ((jsOrStr sl.gradingSource "ai") == "human"
          || (jsOrStr sl.gradingSource "ai") == "manual")) ∧
    (∀ sl : MetricSlot,
      (((jsOrStr sl.gradingSource "ai") == "human"
          || (jsOrStr sl.gradingSource "ai") == "manual") = true ↔
        (sl.gradingSource = some "human" ∨ sl.gradingSource = some "manual"))) ∧
    (∀ (fo : String → Option OrigEssay) (a : ApiResponse) (k : String) (e : FeedbackEntry),
      objLookup (buildFeedback (effRec a) ((processStudentResult fo a).maxScore)).feedback k
          = some e →
      e.isManualOverride = true →
      (processStudentResult fo a).hasManualOverrides = true) := by
  refine ⟨?_, ?_, ?_⟩
  · intro r m k e h
    rcases metric_fold_provenance r.metric_justifications m (r.metrics.take 10) ⟨[], 0, 0⟩ k e h
      with h2 | h2
    · simp [objLookup] at h2
    · exact h2
  · intro sl
    cases hg : sl.gradingSource with
    | none => decide
    | some s =>
      by_cases hs : s = ""
      · subst hs
        decide
      · simp [jsOrStr, hs]
  · intro fo a k e hlk hman
    have hmem := objLookup_mem hlk
    have hany : (buildFeedback (effRec a) ((processStudentResult fo a).maxScore)).feedback.any
        (fun p => p.2.isManualOverride) = true :=
      List.any_eq_true.mpr ⟨(k, e), hmem, by simpa using hman⟩
    show ((buildFeedback (effRec a) ((processStudentResult fo a).maxScore)).feedback.any
        (fun p => p.2.isManualOverride)
      || (effRec a).manual_override_applied || (effRec a).has_manual_overrides) = true
    rw [hany]
    rfl

/-- Claim C10 witness: a slot with grading source `manual` yields a human
feedback entry. -/
theorem C10_provenance_witness :
    ∃ sl ∈ exManualSource.metrics.take 10, sl.name = some "clarity" ∧
      (∃ sc, sl.score = some sc ∧ 0 < sc) ∧
      exManualEntry.isManualOverride = ((jsOrStr sl.gradingSource "ai") == "human"
        || (jsOrStr sl.gradingSource "ai") == "manual") :=
  C10_provenance.1 exManualSource 4 "clarity" exManualEntry (by decide)
